import Mathlib

/-!
Verification of the VCS context-resolution subsystem: the jj "closest
bookmarks" resolution (src/context/jj.rs) and the git command-wrapper
argument construction (src/context/git.rs).

The jj side is embedded as pure functions over the textual stdout of the
two `jj log` invocations: the first invocation's stdout is an
`Option String` (`none` models process failure), and the second
invocation is an oracle `String → Option String` from the change id
passed as the `-r` argument to its stdout.  String handling mirrors
Rust `str` semantics (`lines`, `split`, `trim`), and
`serde_json::from_str::<TrackedBookmarkOutput>` is modelled by a JSON
value parser followed by the derived-deserializer field extraction.
-/

/-! ## Rust string primitives -/

/-- Rust `str::split(sep)` for a one-character pattern: always yields at
least one (possibly empty) segment; adjacent separators yield empty
segments. -/
def splitOnChar (sep : Char) : List Char → List (List Char)
  | [] => [[]]
  | c :: rest =>
    let r := splitOnChar sep rest
    if c == sep then [] :: r
    else
      match r with
      | h :: t => (c :: h) :: t
      | [] => [[c]]

def rustSplit (sep : Char) (s : String) : List String :=
  (splitOnChar sep s.data).map String.mk

/-- Strip one trailing carriage return, as Rust `str::lines` does for a
line that was terminated by `\r\n`. -/
def stripTrailingCR (l : List Char) : List Char :=
  if l.getLast? = some '\r' then l.dropLast else l

/-- Apply `stripTrailingCR` to every segment except the final one (the
final segment was not followed by a `\n`, so Rust keeps its `\r`). -/
def stripCRs : List (List Char) → List (List Char)
  | [] => []
  | [l] => [l]
  | l :: rest => stripTrailingCR l :: stripCRs rest

/-- Drop the empty final segment produced by a trailing newline ("the
final line ending is optional" in Rust `str::lines`). -/
def dropFinalEmpty : List (List Char) → List (List Char)
  | [] => []
  | [[]] => []
  | [l] => [l]
  | l :: rest => l :: dropFinalEmpty rest

/-- Rust `str::lines`. -/
def rustLines (s : String) : List String :=
  (dropFinalEmpty (stripCRs (splitOnChar '\n' s.data))).map String.mk

/-- Code points with the Unicode `White_Space` property, as used by Rust
`char::is_whitespace`. -/
def rustWhitespaceCodes : List Nat :=
  [0x09, 0x0A, 0x0B, 0x0C, 0x0D, 0x20, 0x85, 0xA0, 0x1680,
   0x2000, 0x2001, 0x2002, 0x2003, 0x2004, 0x2005, 0x2006, 0x2007,
   0x2008, 0x2009, 0x200A, 0x2028, 0x2029, 0x202F, 0x205F, 0x3000]

def rustIsWhitespace (c : Char) : Bool :=
  rustWhitespaceCodes.contains c.toNat

/-- Rust `str::trim`. -/
def rustTrim (s : String) : String :=
  String.mk (((s.data.dropWhile rustIsWhitespace).reverse.dropWhile rustIsWhitespace).reverse)

/-! ## JSON values and parser (model of `serde_json`)

`serde_json::from_str::<TrackedBookmarkOutput>` first parses the input
as a single JSON value (surrounded by optional whitespace) and then
runs the derived deserializer: the value must be an object; the fields
`name` (a JSON string) and `ahead`/`behind` (non-negative integer JSON
numbers fitting `u64`) must each occur exactly once (missing or
duplicated known fields are errors); unknown fields are ignored. -/

inductive Json where
  | jnull : Json
  | jbool : Bool → Json
  /-- A number: sign, integer part, whether a fractional part was
  present, whether an exponent was present.  `serde_json` deserializes
  `usize` only from an unsigned integer literal without fraction or
  exponent. -/
  | jnum : Bool → Nat → Bool → Bool → Json
  | jstr : String → Json
  | jarr : List Json → Json
  | jobj : List (String × Json) → Json

/-- The four characters of JSON insignificant whitespace (space, tab,
line feed, carriage return). -/
def jsonWsChars : List Char := [' ', '\t', '\n', '\r']

def jsonSkipWs : List Char → List Char
  | [] => []
  | c :: rest =>
    match jsonWsChars.contains c with
    | true => jsonSkipWs rest
    | false => c :: rest

/-- The value of one hexadecimal digit (code points 48-57, 97-102,
65-70). -/
def hexDigitVal (c : Char) : Option Nat :=
  let n := c.toNat
  if 48 ≤ n ∧ n ≤ 57 then some (n - 48)
  else if 97 ≤ n ∧ n ≤ 102 then some (n - 87)
  else if 65 ≤ n ∧ n ≤ 70 then some (n - 55)
  else none

def hex4 (a b c d : Char) : Option Nat :=
  match hexDigitVal a, hexDigitVal b, hexDigitVal c, hexDigitVal d with
  | some x, some y, some z, some w => some (x * 4096 + y * 256 + z * 16 + w)
  | _, _, _, _ => none

/-- The table of two-character string escapes (`\u` handled apart). -/
def escPairs : List (Char × Char) :=
  [('n', Char.ofNat 10), ('t', Char.ofNat 9), ('r', Char.ofNat 13),
   ('"', '"'), ('\\', '\\'), ('/', '/'), ('b', Char.ofNat 8), ('f', Char.ofNat 12)]

def escChar (c : Char) : Option Char :=
  (escPairs.find? (fun p => p.1 == c)).map (fun p => p.2)

/-- Parse the body of a JSON string (the opening quote already
consumed), returning the decoded characters and the rest of the input.
Raw control characters are rejected; `\uXXXX` escapes are decoded with
surrogate pairing; lone surrogates are errors. -/
def parseStringRest : List Char → Option (List Char × List Char)
  | [] => none
  | '"' :: rest => some ([], rest)
  | '\\' :: 'u' :: h1 :: h2 :: h3 :: h4 :: rest2 =>
    match hex4 h1 h2 h3 h4 with
    | none => none
    | some v =>
      if 0xD800 ≤ v ∧ v ≤ 0xDBFF then
        match rest2 with
        | '\\' :: 'u' :: g1 :: g2 :: g3 :: g4 :: rest3 =>
          match hex4 g1 g2 g3 g4 with
          | none => none
          | some w =>
            if 0xDC00 ≤ w ∧ w ≤ 0xDFFF then
              match parseStringRest rest3 with
              | some (s, r) =>
                some (Char.ofNat ((v - 0xD800) * 1024 + (w - 0xDC00) + 0x10000) :: s, r)
              | none => none
            else none
        | _ => none
      else if 0xDC00 ≤ v ∧ v ≤ 0xDFFF then none
      else
        match parseStringRest rest2 with
        | some (s, r) => some (Char.ofNat v :: s, r)
        | none => none
  | '\\' :: e :: rest2 =>
    match escChar e with
    | some c =>
      match parseStringRest rest2 with
      | some (s, r) => some (c :: s, r)
      | none => none
    | none => none
  | c :: rest =>
    if c.toNat < 0x20 then none
    else
      match parseStringRest rest with
      | some (s, r) => some (c :: s, r)
      | none => none

def takeDigits : List Char → List Char × List Char
  | [] => ([], [])
  | c :: rest =>
    if !c.isDigit then ([], c :: rest)
    else
      match takeDigits rest with
      | (ds, r) => (c :: ds, r)

def natOfDigits (ds : List Char) : Nat :=
  ds.foldl (fun acc c => 10 * acc + (c.toNat - '0'.toNat)) 0

/-- Optional fractional part `.digits+`. -/
def parseFrac : List Char → Option (Bool × List Char)
  | '.' :: r =>
    match takeDigits r with
    | ([], _) => none
    | (_ :: _, rest) => some (true, rest)
  | cs => some (false, cs)

/-- Optional exponent part `[eE][+-]?digits+`. -/
def parseExp : List Char → Option (Bool × List Char)
  | [] => some (false, [])
  | c :: r =>
    if c == 'e' || c == 'E' then
      let body :=
        match r with
        | s :: t => if s == '+' || s == '-' then t else r
        | [] => r
      match takeDigits body with
      | ([], _) => none
      | (_ :: _, rest) => some (true, rest)
    else some (false, c :: r)

def parseNumTail (neg : Bool) (iv : Nat) (cs : List Char) : Option (Json × List Char) := do
  let (hasFrac, cs1) ← parseFrac cs
  let (hasExp, cs2) ← parseExp cs1
  pure (Json.jnum neg iv hasFrac hasExp, cs2)

/-- JSON number grammar: `-?(0|[1-9][0-9]*)(frac)?(exp)?`. -/
def parseNumber (cs : List Char) : Option (Json × List Char) :=
  let (neg, cs1) := match cs with
    | '-' :: r => (true, r)
    | _ => (false, cs)
  match cs1 with
  | [] => none
  | c :: rest =>
    if c == '0' then
      match rest with
      | d :: _ => if d.isDigit then none else parseNumTail neg 0 rest
      | [] => parseNumTail neg 0 []
    else if c.isDigit then
      let (ds, r) := takeDigits rest
      parseNumTail neg (natOfDigits (c :: ds)) r
    else none

mutual

/-- Parse one JSON value.  The fuel bounds nesting; the top-level entry
point supplies more fuel than any input can consume. -/
def parseValue : Nat → List Char → Option (Json × List Char)
  | 0, _ => none
  | Nat.succ n, cs =>
    match cs with
    | [] => none
    | c :: rest =>
      if c == 'n' then
        match rest with
        | 'u' :: 'l' :: 'l' :: r => some (Json.jnull, r)
        | _ => none
      else if c == 't' then
        match rest with
        | 'r' :: 'u' :: 'e' :: r => some (Json.jbool true, r)
        | _ => none
      else if c == 'f' then
        match rest with
        | 'a' :: 'l' :: 's' :: 'e' :: r => some (Json.jbool false, r)
        | _ => none
      else if c == '"' then
        match parseStringRest rest with
        | some (content, r) => some (Json.jstr (String.mk content), r)
        | none => none
      else if c == '[' then
        match jsonSkipWs rest with
        | ']' :: r => some (Json.jarr [], r)
        | cs2 =>
          match parseElems n cs2 with
          | some (es, r) => some (Json.jarr es, r)
          | none => none
      else if c == '\x7b' then
        match jsonSkipWs rest with
        | '\x7d' :: r => some (Json.jobj [], r)
        | cs2 =>
          match parseMembers n cs2 with
          | some (ms, r) => some (Json.jobj ms, r)
          | none => none
      else if c == '-' || c.isDigit then parseNumber (c :: rest)
      else none

/-- Parse the comma-separated elements of a non-empty JSON array, up to
and including the closing bracket. -/
def parseElems : Nat → List Char → Option (List Json × List Char)
  | 0, _ => none
  | Nat.succ n, cs =>
    match parseValue n cs with
    | none => none
    | some (v, afterVal) =>
      match jsonSkipWs afterVal with
      | ']' :: tail => some ([v], tail)
      | ',' :: tail =>
        match parseElems n (jsonSkipWs tail) with
        | none => none
        | some (vs, fin) => some (v :: vs, fin)
      | _ => none

/-- Parse the comma-separated members of a non-empty JSON object, up to
and including the closing brace. -/
def parseMembers : Nat → List Char → Option (List (String × Json) × List Char)
  | 0, _ => none
  | Nat.succ n, cs =>
    match cs with
    | '"' :: afterQuote =>
      match parseStringRest afterQuote with
      | none => none
      | some (keyChars, afterKey) =>
        match jsonSkipWs afterKey with
        | ':' :: afterColon =>
          match parseValue n (jsonSkipWs afterColon) with
          | none => none
          | some (v, afterVal) =>
            match jsonSkipWs afterVal with
            | '\x7d' :: tail => some ([(String.mk keyChars, v)], tail)
            | ',' :: tail =>
              match parseMembers n (jsonSkipWs tail) with
              | none => none
              | some (more, fin) => some ((String.mk keyChars, v) :: more, fin)
            | _ => none
        | _ => none
    | _ => none

end

/-- Parse a complete input as exactly one JSON value surrounded by
optional whitespace, as `serde_json::from_str` requires. -/
def parseJson (s : String) : Option Json :=
  let cs := jsonSkipWs s.data
  match parseValue (2 * cs.length + 8) cs with
  | some (j, rest) => if (jsonSkipWs rest).isEmpty then some j else none
  | none => none

/-! ## Data model (src/context/jj.rs) -/

/-- `struct TrackedBookmarkOutput { name, ahead, behind }`. -/
structure TrackedBookmarkOutput where
  name : String
  ahead : Nat
  behind : Nat
deriving DecidableEq

/-- `struct BookmarkInfo`. -/
structure BookmarkInfo where
  name : String
  remote_ahead : Nat
  remote_behind : Nat
  is_tracked : Bool
deriving DecidableEq

/-- `struct JjClosestBookmarksInfo`. -/
structure JjClosestBookmarksInfo where
  bookmarks : List BookmarkInfo
deriving DecidableEq

/-- Deserializing `usize` from a JSON value: only an unsigned integer
literal (no sign, fraction, or exponent) that fits in 64 bits. -/
def jsonAsUsize : Json → Option Nat
  | Json.jnum false v false false => if v < 2 ^ 64 then some v else none
  | _ => none

def jsonAsString : Json → Option String
  | Json.jstr s => some s
  | _ => none

/-- The derived deserializer for `TrackedBookmarkOutput`: object with
each known field exactly once (any order), unknown fields ignored. -/
def fromJsonTracked (j : Json) : Option TrackedBookmarkOutput :=
  match j with
  | Json.jobj kvs =>
    match kvs.filter (fun kv => kv.1 == "name"),
          kvs.filter (fun kv => kv.1 == "ahead"),
          kvs.filter (fun kv => kv.1 == "behind") with
    | [(_, nv)], [(_, av)], [(_, bv)] => do
      let n ← jsonAsString nv
      let a ← jsonAsUsize av
      let b ← jsonAsUsize bv
      pure ⟨n, a, b⟩
    | _, _, _ => none
  | _ => none

/-- `serde_json::from_str::<TrackedBookmarkOutput>(entry).ok()`. -/
def decodeRecord (s : String) : Option TrackedBookmarkOutput :=
  match parseJson s with
  | some j => fromJsonTracked j
  | none => none

/-! ## Tracked-bookmark decoding and merging (src/context/jj.rs, `parse_tracked_bookmarks`) -/

/-- Lookup in the tracked-bookmark map, modelling `HashMap::get` (the
map is represented extensionally as an association list). -/
def lookupBookmark (name : String) : List (String × Nat × Nat) → Option (Nat × Nat)
  | [] => none
  | (k, v) :: rest => if k = name then some v else lookupBookmark name rest

/-- One step of the fold in `parse_tracked_bookmarks`:
`map.entry(name).and_modify(max componentwise).or_insert(counts)`. -/
def upsertBookmark : List (String × Nat × Nat) → String → Nat × Nat → List (String × Nat × Nat)
  | [], n, c => [(n, c)]
  | (k, v) :: rest, n, c =>
    if k = n then (k, (Nat.max v.1 c.1, Nat.max v.2 c.2)) :: rest
    else (k, v) :: upsertBookmark rest n c

/-- The line-list stage of `parse_tracked_bookmarks`: keep non-blank
entries, decode each with `serde_json`, drop failures. -/
def decodedLines (entries : List String) : List TrackedBookmarkOutput :=
  (entries.filter (fun entry => !(rustTrim entry == ""))).filterMap decodeRecord

def decodedRecords (output : String) : List TrackedBookmarkOutput :=
  decodedLines (rustLines output)

def foldTracked (recs : List TrackedBookmarkOutput) : List (String × Nat × Nat) :=
  recs.foldl (fun map e => upsertBookmark map e.name (e.ahead, e.behind)) []

/-- `fn parse_tracked_bookmarks(output: &str) -> HashMap<String, (usize, usize)>`:
split the input into lines, drop blank lines, JSON-decode each line,
drop failures, and fold the records into a map merging duplicates with
componentwise `max`. -/
def parse_tracked_bookmarks (output : String) : List (String × Nat × Nat) :=
  foldTracked (decodedRecords output)

def parse_tracked_lines (entries : List String) : List (String × Nat × Nat) :=
  foldTracked (decodedLines entries)

/-! ## Closest-bookmark resolution (src/context/jj.rs, `get_closest_jujutsu_bookmarks_info`) -/

/-- `closest_bookmarks_output.split("\x1f").next().unwrap_or("")`. -/
def changeIdClosest (closest_bookmarks_output : String) : String :=
  (rustSplit '\x1f' closest_bookmarks_output).headD ""

/-- The final-assembly loop (lines 112-131): one `BookmarkInfo` per
non-empty record-separated entry of line 1, looked up in the merged
tracked map. -/
def assembleBookmarks (bookmarks_str : String) (tracked : List (String × Nat × Nat)) : List BookmarkInfo :=
  if bookmarks_str = "" then []
  else
    ((rustSplit '\x1e' bookmarks_str).filter (fun entry => !(entry == ""))).map
      (fun name =>
        match lookupBookmark name tracked with
        | some c => ⟨name, c.1, c.2, true⟩
        | none => ⟨name, 0, 0, false⟩)

/-- `get_closest_jujutsu_bookmarks_info`, as a function of the stdout of
the phase-1 `jj log` invocation (`none` models a failed invocation, at
which the `?` operator returns `None`) and an oracle giving the stdout
of the phase-2 invocation for the change id passed as its `-r`
argument. -/
def get_closest_jujutsu_bookmarks_info :
    Option String → (String → Option String) → Option JjClosestBookmarksInfo
  | none, _ => none
  | some out1, phase2 =>
    let change_id_closest := changeIdClosest out1
    if change_id_closest = "" then some ⟨[]⟩
    else
      match phase2 change_id_closest with
      | none => none
      | some output =>
        let ls := rustLines output
        let bookmarks_str := ls.headD ""
        let tracked_bookmarks_str := (ls.drop 1).headD ""
        some ⟨assembleBookmarks bookmarks_str (parse_tracked_bookmarks tracked_bookmarks_str)⟩

/-! ## Git command wrapper (src/context/git.rs) -/

/-- An argument passed to the external `git` process.  `lit` marks the
string literals written in `exec_git` itself; `path` marks the values
taken from the context or the discovered repository (`current_dir`,
`self.path`, the workdir). -/
inductive GitArg where
  | lit : String → GitArg
  | path : String → GitArg
deriving DecidableEq

/-- `repository.config_snapshot().boolean("core.fsmonitor").unwrap_or(false)`
(src/context/git.rs lines 95-98): the observed configuration value is
`some true` / `some false` when parsable, `none` when unset or
unparsable. -/
def fs_monitor_value_is_true (observed : Option Bool) : Bool :=
  observed.getD false

/-- The `-c` value chosen in `exec_git` (lines 150-154). -/
def fsm_config_value (fsMonitorValueIsTrue : Bool) : String :=
  if fsMonitorValueIsTrue then "core.fsmonitor=true" else "core.fsmonitor="

/-- The argument list built by `Repo::exec_git` (lines 142-170): the
pinned `-C`, `--git-dir`, `-c core.fsmonitor=...` flags, then
`--work-tree` when a workdir exists, then the caller's arguments. -/
def exec_git_args (fsMonitorValueIsTrue : Bool) (current_dir git_dir : String)
    (workdir : Option String) (git_args : List GitArg) : List GitArg :=
  [GitArg.lit "-C", GitArg.path current_dir, GitArg.lit "--git-dir", GitArg.path git_dir,
   GitArg.lit "-c", GitArg.lit (fsm_config_value fsMonitorValueIsTrue)]
  ++ (match workdir with
      | some wt => [GitArg.lit "--work-tree", GitArg.path wt]
      | none => [])
  ++ git_args

/-! ## Helper lemmas -/

/-- Merge a new count pair into an optional existing entry, as
`entry(...).and_modify(...).or_insert(...)` does. -/
def mergeCounts : Option (Nat × Nat) → Nat × Nat → Nat × Nat
  | some v, c => (Nat.max v.1 c.1, Nat.max v.2 c.2)
  | none, c => c

/-- Accumulate one decoded record into the running merged entry for a
fixed name. -/
def combineCounts (acc : Option (Nat × Nat)) (e : TrackedBookmarkOutput) : Option (Nat × Nat) :=
  some (mergeCounts acc (e.ahead, e.behind))

lemma lookupBookmark_upsert (m : List (String × Nat × Nat)) (n : String) (c : Nat × Nat)
    (k : String) :
    lookupBookmark k (upsertBookmark m n c) =
      if n = k then some (mergeCounts (lookupBookmark k m) c) else lookupBookmark k m := by
  induction m with
  | nil =>
    by_cases h : n = k <;> simp [upsertBookmark, lookupBookmark, mergeCounts, h]
  | cons hd tl ih =>
    obtain ⟨hk, hv⟩ := hd
    by_cases h1 : hk = n
    · subst h1
      by_cases h2 : hk = k
      · subst h2
        simp [upsertBookmark, lookupBookmark, mergeCounts]
      · simp [upsertBookmark, lookupBookmark, h2, Ne.symm h2]
    · by_cases h2 : hk = k
      · subst h2
        have : ¬ n = hk := fun h => h1 h.symm
        simp [upsertBookmark, lookupBookmark, h1, this]
      · simp [upsertBookmark, lookupBookmark, h1, h2, ih]


lemma lookupBookmark_foldTracked_go (recs : List TrackedBookmarkOutput)
    (m : List (String × Nat × Nat)) (k : String) :
    lookupBookmark k
        (recs.foldl (fun map e => upsertBookmark map e.name (e.ahead, e.behind)) m) =
      (recs.filter (fun e => e.name == k)).foldl combineCounts (lookupBookmark k m) := by
  induction recs generalizing m with
  | nil => rfl
  | cons r rest ih =>
    rw [List.foldl_cons, ih]
    by_cases h : r.name = k
    · have hb : (r.name == k) = true := by simpa using h
      have hfil : List.filter (fun e => e.name == k) (r :: rest)
          = r :: List.filter (fun e => e.name == k) rest := by
        simp [List.filter_cons, hb]
      rw [hfil, List.foldl_cons, lookupBookmark_upsert, if_pos h]
      rfl
    · have hb : (r.name == k) = false := by simpa using h
      have hfil : List.filter (fun e => e.name == k) (r :: rest)
          = List.filter (fun e => e.name == k) rest := by
        simp [List.filter_cons, hb]
      rw [hfil, lookupBookmark_upsert, if_neg h]

lemma foldl_combineCounts_some (rest : List TrackedBookmarkOutput) (v : Nat × Nat) :
    rest.foldl combineCounts (some v) =
      some (rest.foldl (fun a e => Nat.max a e.ahead) v.1,
            rest.foldl (fun a e => Nat.max a e.behind) v.2) := by
  induction rest generalizing v with
  | nil => rfl
  | cons r rs ih =>
    rw [List.foldl_cons,
        show combineCounts (some v) r = some (Nat.max v.1 r.ahead, Nat.max v.2 r.behind) from rfl,
        ih]
    rfl

lemma lookupBookmark_parse (output : String) (k : String) :
    lookupBookmark k (parse_tracked_bookmarks output) =
      ((decodedRecords output).filter (fun e => e.name == k)).foldl combineCounts none := by
  unfold parse_tracked_bookmarks foldTracked
  rw [lookupBookmark_foldTracked_go]
  rfl

lemma decodedLines_append (l1 l2 : List String) :
    decodedLines (l1 ++ l2) = decodedLines l1 ++ decodedLines l2 := by
  unfold decodedLines
  rw [List.filter_append, List.filterMap_append]

lemma assemble_names (s : String) (t : List (String × Nat × Nat)) :
    (assembleBookmarks s t).map (fun b => b.name) =
      (rustSplit '\x1e' s).filter (fun entry => !(entry == "")) := by
  unfold assembleBookmarks
  by_cases h : s = ""
  · subst h
    rw [if_pos rfl]
    decide
  · rw [if_neg h, List.map_map]
    have hcong : ∀ a ∈ (rustSplit '\x1e' s).filter (fun entry => !(entry == "")),
        ((fun b => b.name) ∘ (fun name =>
          match lookupBookmark name t with
          | some c => (⟨name, c.1, c.2, true⟩ : BookmarkInfo)
          | none => ⟨name, 0, 0, false⟩)) a = id a := by
      intro a _
      simp only [Function.comp_apply, id_eq]
      cases lookupBookmark a t <;> rfl
    rw [List.map_congr_left hcong, List.map_id]

lemma assemble_mem (s : String) (t : List (String × Nat × Nat)) (b : BookmarkInfo)
    (hb : b ∈ assembleBookmarks s t) :
    (b.is_tracked = true ∧ lookupBookmark b.name t = some (b.remote_ahead, b.remote_behind))
    ∨ (b.is_tracked = false ∧ lookupBookmark b.name t = none
       ∧ b.remote_ahead = 0 ∧ b.remote_behind = 0) := by
  unfold assembleBookmarks at hb
  by_cases h : s = ""
  · rw [if_pos h] at hb
    cases hb
  · rw [if_neg h] at hb
    obtain ⟨a, _, hbe⟩ := List.mem_map.mp hb
    cases hl : lookupBookmark a t with
    | none =>
      rw [hl] at hbe
      cases hbe
      exact Or.inr ⟨rfl, hl, rfl, rfl⟩
    | some c =>
      rw [hl] at hbe
      cases hbe
      exact Or.inl ⟨rfl, by rw [hl]⟩

lemma assemble_name_ne (s : String) (t : List (String × Nat × Nat)) (b : BookmarkInfo)
    (hb : b ∈ assembleBookmarks s t) : ¬ b.name = "" := by
  have h1 : b.name ∈ (assembleBookmarks s t).map (fun b => b.name) :=
    List.mem_map_of_mem _ hb
  rw [assemble_names] at h1
  have h2 := List.of_mem_filter h1
  simpa using h2

lemma get_closest_run (o1 out : String) (e2 : String → Option String)
    (h1 : changeIdClosest o1 ≠ "") (h2 : e2 (changeIdClosest o1) = some out) :
    get_closest_jujutsu_bookmarks_info (some o1) e2 =
      some ⟨assembleBookmarks ((rustLines out).headD "")
              (parse_tracked_bookmarks (((rustLines out).drop 1).headD ""))⟩ := by
  simp only [get_closest_jujutsu_bookmarks_info]
  rw [if_neg h1, h2]

/-! ## Claims -/

/-- Claim C1 (refuted by evaluation; the code contradicts its own
template protocol).  At the spec's round-trip input — line 1
`feat\x1emain`, line 2 `feat\x1f2\x1f0\x1emain\x1f0\x1f1` — the
implementation returns both bookmarks untracked with zero counts:
`parse_tracked_bookmarks` never splits line 2 on the record separator
but instead JSON-decodes the whole line, which fails, leaving the
tracked map empty.  The claim says the result should be
`{feat, 2, 0, tracked}` and `{main, 0, 1, tracked}`. -/
theorem c1_roundtrip_input_yields_untracked :
    get_closest_jujutsu_bookmarks_info (some "c1")
        (fun _ => some "feat\x1emain\nfeat\x1f2\x1f0\x1emain\x1f0\x1f1")
      = some ⟨[⟨"feat", 0, 0, false⟩, ⟨"main", 0, 0, false⟩]⟩ := by
  decide

/-- Claim C2: whenever at least one decoded tracked-bookmark record has
a given name, the merged map entry for that name is the componentwise
maximum of the `ahead` counts and of the `behind` counts across all
records with that name (in particular, duplicates merge by `max`, not
sum or overwrite). -/
theorem c2_duplicates_merge_componentwise_max (output k : String)
    (h : (decodedRecords output).filter (fun e => e.name == k) ≠ []) :
    lookupBookmark k (parse_tracked_bookmarks output) =
      some ((((decodedRecords output).filter (fun e => e.name == k)).map
                (fun e => e.ahead)).foldl Nat.max 0,
            (((decodedRecords output).filter (fun e => e.name == k)).map
                (fun e => e.behind)).foldl Nat.max 0) := by
  rw [lookupBookmark_parse]
  obtain ⟨r, rs, hr⟩ := List.exists_cons_of_ne_nil h
  rw [hr, List.foldl_cons,
      show combineCounts none r = some (r.ahead, r.behind) from rfl,
      foldl_combineCounts_some]
  congr 1
  simp [List.foldl_map, Nat.zero_max]

/-- Witness for C2: duplicate records for `a` with counts `(1,3)` and
`(2,1)` merge to `(2,3)`. -/
theorem c2_witness :
    lookupBookmark "a" (parse_tracked_bookmarks
        "\x7b\"name\":\"a\",\"ahead\":1,\"behind\":3\x7d\n\x7b\"name\":\"a\",\"ahead\":2,\"behind\":1\x7d")
      = some (2, 3) := by
  have h := c2_duplicates_merge_componentwise_max
      "\x7b\"name\":\"a\",\"ahead\":1,\"behind\":3\x7d\n\x7b\"name\":\"a\",\"ahead\":2,\"behind\":1\x7d"
      "a" (by decide)
  exact h.trans (by decide)

lemma exec_git_fsm_value_present (flag : Bool) (cd gd : String) (wd : Option String)
    (gargs : List GitArg) :
    List.IsInfix [GitArg.lit "-c", GitArg.lit (fsm_config_value flag)]
      (exec_git_args flag cd gd wd gargs) := by
  refine ⟨[GitArg.lit "-C", GitArg.path cd, GitArg.lit "--git-dir", GitArg.path gd],
          (match wd with
           | some wt => [GitArg.lit "--work-tree", GitArg.path wt]
           | none => []) ++ gargs, ?_⟩
  cases wd <;> simp [exec_git_args]

lemma exec_git_fsm_count (flag : Bool) (cd gd : String) (wd : Option String)
    (gargs : List GitArg)
    (h1 : GitArg.lit "core.fsmonitor=true" ∉ gargs)
    (h2 : GitArg.lit "core.fsmonitor=" ∉ gargs) :
    (exec_git_args flag cd gd wd gargs).count (GitArg.lit "core.fsmonitor=true")
      + (exec_git_args flag cd gd wd gargs).count (GitArg.lit "core.fsmonitor=") = 1 := by
  have z1 : gargs.count (GitArg.lit "core.fsmonitor=true") = 0 := List.count_eq_zero.mpr h1
  have z2 : gargs.count (GitArg.lit "core.fsmonitor=") = 0 := List.count_eq_zero.mpr h2
  cases flag <;> cases wd <;>
    simp [exec_git_args, fsm_config_value, List.count_append, List.count_cons, z1, z2]

/-- Claim C3: if the observed `core.fsmonitor` configuration value was
`true`, the argument list built by `exec_git` contains
`-c core.fsmonitor=true`; for any other observed value (`false`, unset,
or unparsable) it contains `-c core.fsmonitor=`; and (provided the
caller-supplied arguments do not themselves mention either value)
exactly one of the two values appears in the whole list. -/
theorem c3_fsmonitor_forced (observed : Option Bool) (cd gd : String)
    (wd : Option String) (gargs : List GitArg)
    (h1 : GitArg.lit "core.fsmonitor=true" ∉ gargs)
    (h2 : GitArg.lit "core.fsmonitor=" ∉ gargs) :
    ((observed = some true →
        List.IsInfix [GitArg.lit "-c", GitArg.lit "core.fsmonitor=true"]
          (exec_git_args (fs_monitor_value_is_true observed) cd gd wd gargs))
     ∧ (observed ≠ some true →
        List.IsInfix [GitArg.lit "-c", GitArg.lit "core.fsmonitor="]
          (exec_git_args (fs_monitor_value_is_true observed) cd gd wd gargs)))
    ∧ (exec_git_args (fs_monitor_value_is_true observed) cd gd wd gargs).count
          (GitArg.lit "core.fsmonitor=true")
        + (exec_git_args (fs_monitor_value_is_true observed) cd gd wd gargs).count
          (GitArg.lit "core.fsmonitor=") = 1 := by
  refine ⟨⟨fun ho => ?_, fun ho => ?_⟩, exec_git_fsm_count _ cd gd wd gargs h1 h2⟩
  · subst ho
    exact exec_git_fsm_value_present true cd gd wd gargs
  · have hf : fs_monitor_value_is_true observed = false := by
      cases observed with
      | none => rfl
      | some b =>
        cases b with
        | true => exact absurd rfl ho
        | false => rfl
    rw [hf]
    exact exec_git_fsm_value_present false cd gd wd gargs

/-- Witness for C3 at a concrete invocation (`core.fsmonitor` observed
`true`, one caller argument). -/
theorem c3_witness :
    List.IsInfix [GitArg.lit "-c", GitArg.lit "core.fsmonitor=true"]
        (exec_git_args (fs_monitor_value_is_true (some true)) "/cwd" "/repo/.git"
          (some "/repo") [GitArg.lit "status"])
    ∧ (exec_git_args (fs_monitor_value_is_true (some true)) "/cwd" "/repo/.git"
          (some "/repo") [GitArg.lit "status"]).count (GitArg.lit "core.fsmonitor=true")
        + (exec_git_args (fs_monitor_value_is_true (some true)) "/cwd" "/repo/.git"
          (some "/repo") [GitArg.lit "status"]).count (GitArg.lit "core.fsmonitor=") = 1 := by
  have h := c3_fsmonitor_forced (some true) "/cwd" "/repo/.git" (some "/repo")
      [GitArg.lit "status"] (by decide) (by decide)
  exact ⟨h.1.1 rfl, h.2⟩

/-- Claim C4: for every executed phase-2 output, the assembled result
has exactly one `BookmarkInfo` per non-empty record-separated entry of
line 1 (in order, and no others); an entry found in the merged
tracked-bookmark map is tracked with the merged counts; an absent entry
is untracked with zero counts; hence every untracked `BookmarkInfo` has
both counts zero. -/
theorem c4_assembly_membership_and_counts (o1 out : String)
    (e2 : String → Option String) (info : JjClosestBookmarksInfo)
    (hcid : changeIdClosest o1 ≠ "")
    (he2 : e2 (changeIdClosest o1) = some out)
    (hres : get_closest_jujutsu_bookmarks_info (some o1) e2 = some info) :
    (info.bookmarks.map (fun b => b.name) =
      (rustSplit '\x1e' ((rustLines out).headD "")).filter (fun entry => !(entry == "")))
    ∧ (∀ b ∈ info.bookmarks,
        (b.is_tracked = true ∧
          lookupBookmark b.name
              (parse_tracked_bookmarks (((rustLines out).drop 1).headD ""))
            = some (b.remote_ahead, b.remote_behind))
        ∨ (b.is_tracked = false ∧
          lookupBookmark b.name
              (parse_tracked_bookmarks (((rustLines out).drop 1).headD "")) = none
          ∧ b.remote_ahead = 0 ∧ b.remote_behind = 0))
    ∧ (∀ b ∈ info.bookmarks, b.is_tracked = false →
        b.remote_ahead = 0 ∧ b.remote_behind = 0) := by
  rw [get_closest_run o1 out e2 hcid he2] at hres
  injection hres with h
  subst h
  refine ⟨assemble_names _ _, fun b hb => assemble_mem _ _ b hb, fun b hb hf => ?_⟩
  rcases assemble_mem _ _ b hb with ⟨ht, _⟩ | ⟨_, _, ha, hbv⟩
  · exact absurd hf (by simp [ht])
  · exact ⟨ha, hbv⟩

/-- Witness for C4: a phase-2 output with local bookmarks `feat`, `main`
and a (JSON-line) tracked record for `feat` assembles to exactly those
two names. -/
theorem c4_witness :
    (JjClosestBookmarksInfo.bookmarks
        ⟨[⟨"feat", 2, 0, true⟩, ⟨"main", 0, 0, false⟩]⟩).map (fun b => b.name)
      = (rustSplit '\x1e'
          ((rustLines "feat\x1emain\n\x7b\"name\":\"feat\",\"ahead\":2,\"behind\":0\x7d").headD "")).filter
          (fun entry => !(entry == "")) :=
  (c4_assembly_membership_and_counts "cid"
    "feat\x1emain\n\x7b\"name\":\"feat\",\"ahead\":2,\"behind\":0\x7d"
    (fun _ => some "feat\x1emain\n\x7b\"name\":\"feat\",\"ahead\":2,\"behind\":0\x7d")
    ⟨[⟨"feat", 2, 0, true⟩, ⟨"main", 0, 0, false⟩]⟩
    (by decide) rfl (by decide)).1

/-- Counterexample to claim C5 as stated: when line 1 of the phase-2
output repeats a local bookmark name, the result contains that name
twice — the code does not deduplicate the local-bookmark list. -/
theorem c5_counterexample :
    get_closest_jujutsu_bookmarks_info (some "x") (fun _ => some "feat\x1efeat\n")
      = some ⟨[⟨"feat", 0, 0, false⟩, ⟨"feat", 0, 0, false⟩]⟩
    ∧ ¬ (([⟨"feat", 0, 0, false⟩, ⟨"feat", 0, 0, false⟩] : List BookmarkInfo).map
          (fun b => b.name)).Nodup := by
  exact ⟨by decide, by decide⟩

/-- Claim C5 as amended: bookmark names in the result are unique
provided the non-empty record-separated entries of phase-2 line 1 are
themselves distinct (the tracked map merges duplicates, but the local
name list from line 1 is reproduced as is). -/
theorem c5_amended_names_unique (o1 : String) (e2 : String → Option String)
    (info : JjClosestBookmarksInfo)
    (hres : get_closest_jujutsu_bookmarks_info (some o1) e2 = some info)
    (hnd : ∀ out, e2 (changeIdClosest o1) = some out →
      ((rustSplit '\x1e' ((rustLines out).headD "")).filter
          (fun entry => !(entry == ""))).Nodup) :
    (info.bookmarks.map (fun b => b.name)).Nodup := by
  by_cases hcid : changeIdClosest o1 = ""
  · have h0 : get_closest_jujutsu_bookmarks_info (some o1) e2 = some ⟨[]⟩ := by
      simp only [get_closest_jujutsu_bookmarks_info]
      rw [if_pos hcid]
    rw [h0] at hres
    injection hres with h
    subst h
    simp
  · cases he : e2 (changeIdClosest o1) with
    | none =>
      have h0 : get_closest_jujutsu_bookmarks_info (some o1) e2 = none := by
        simp only [get_closest_jujutsu_bookmarks_info]
        rw [if_neg hcid, he]
      rw [h0] at hres
      cases hres
    | some out =>
      rw [get_closest_run o1 out e2 hcid he] at hres
      injection hres with h
      subst h
      rw [assemble_names]
      exact hnd out he

/-- Witness for C5 (amended): distinct local names yield a
duplicate-free result. -/
theorem c5_witness :
    (([⟨"feat", 0, 0, false⟩, ⟨"main", 0, 0, false⟩] : List BookmarkInfo).map
        (fun b => b.name)).Nodup :=
  c5_amended_names_unique "c" (fun _ => some "feat\x1emain\n")
    ⟨[⟨"feat", 0, 0, false⟩, ⟨"main", 0, 0, false⟩]⟩ (by decide)
    (fun out hout => by cases hout; decide)

/-- Claim C6: when the first unit-separator field of the phase-1 output
is empty, the result is a present `JjClosestBookmarksInfo` with an empty
bookmark list — for every phase-2 oracle, i.e. the phase-2 query has no
influence and is observationally never executed. -/
theorem c6_empty_change_id_gives_empty_present_result (o1 : String)
    (e2 : String → Option String) (h : changeIdClosest o1 = "") :
    get_closest_jujutsu_bookmarks_info (some o1) e2 = some ⟨[]⟩ := by
  simp only [get_closest_jujutsu_bookmarks_info]
  rw [if_pos h]

/-- Witness for C6: a phase-1 output starting with the unit separator,
with a phase-2 oracle that would fail if consulted. -/
theorem c6_witness :
    get_closest_jujutsu_bookmarks_info (some "\x1fabc") (fun _ => none) = some ⟨[]⟩ :=
  c6_empty_change_id_gives_empty_present_result "\x1fabc" (fun _ => none) (by decide)

/-- Claim C7: only the first unit-separator field of the phase-1 output
is used; two phase-1 outputs with the same first field give the same
result under any phase-2 oracle. -/
theorem c7_only_first_field_used (o1 o1' : String) (e2 : String → Option String)
    (h : changeIdClosest o1 = changeIdClosest o1') :
    get_closest_jujutsu_bookmarks_info (some o1) e2
      = get_closest_jujutsu_bookmarks_info (some o1') e2 := by
  simp only [get_closest_jujutsu_bookmarks_info]
  rw [h]

/-- Witness for C7: extra fields after the first are irrelevant. -/
theorem c7_witness :
    get_closest_jujutsu_bookmarks_info (some "abc\x1fdef") (fun cid => some cid)
      = get_closest_jujutsu_bookmarks_info (some "abc\x1fzzz\x1fwww") (fun cid => some cid) :=
  c7_only_first_field_used "abc\x1fdef" "abc\x1fzzz\x1fwww" (fun cid => some cid) (by decide)

/-- Claim C8: a line of the tracked-bookmark input that fails to decode
is dropped on its own — the map equals the one computed from the
remaining lines — and the map still has an entry for the name of every
record that does decode; decoding never fails as a whole. -/
theorem c8_malformed_record_dropped (output bad : String) (pre post : List String)
    (hsplit : rustLines output = pre ++ bad :: post)
    (hbad : decodeRecord bad = none) :
    parse_tracked_bookmarks output = parse_tracked_lines (pre ++ post)
    ∧ ∀ r ∈ decodedRecords output,
        lookupBookmark r.name (parse_tracked_bookmarks output) ≠ none := by
  have hdrop : decodedLines (bad :: post) = decodedLines post := by
    unfold decodedLines
    cases hkeep : (!(rustTrim bad == "")) with
    | false =>
      rw [show List.filter (fun entry => !(rustTrim entry == "")) (bad :: post)
            = List.filter (fun entry => !(rustTrim entry == "")) post from by
          simp [List.filter_cons, hkeep]]
    | true =>
      rw [show List.filter (fun entry => !(rustTrim entry == "")) (bad :: post)
            = bad :: List.filter (fun entry => !(rustTrim entry == "")) post from by
          simp [List.filter_cons, hkeep]]
      simp [List.filterMap_cons, hbad]
  have hdec : decodedRecords output = decodedLines (pre ++ post) := by
    unfold decodedRecords
    rw [hsplit, decodedLines_append, hdrop, ← decodedLines_append]
  constructor
  · unfold parse_tracked_bookmarks parse_tracked_lines
    rw [hdec]
  · intro r hr
    rw [lookupBookmark_parse]
    have hmem : r ∈ (decodedRecords output).filter (fun e => e.name == r.name) :=
      List.mem_filter.mpr ⟨hr, by simp⟩
    obtain ⟨x, xs, hx⟩ := List.exists_cons_of_ne_nil (List.ne_nil_of_mem hmem)
    rw [hx, List.foldl_cons,
        show combineCounts none x = some (x.ahead, x.behind) from rfl,
        foldl_combineCounts_some]
    simp

/-- Witness for C8: an undecodable middle line between two well-formed
records is dropped, and both well-formed records survive. -/
theorem c8_witness :
    parse_tracked_bookmarks
        "\x7b\"name\":\"a\",\"ahead\":1,\"behind\":3\x7d\nnotjson\n\x7b\"name\":\"b\",\"ahead\":2,\"behind\":1\x7d"
      = parse_tracked_lines
          ["\x7b\"name\":\"a\",\"ahead\":1,\"behind\":3\x7d",
           "\x7b\"name\":\"b\",\"ahead\":2,\"behind\":1\x7d"] :=
  (c8_malformed_record_dropped
    "\x7b\"name\":\"a\",\"ahead\":1,\"behind\":3\x7d\nnotjson\n\x7b\"name\":\"b\",\"ahead\":2,\"behind\":1\x7d"
    "notjson"
    ["\x7b\"name\":\"a\",\"ahead\":1,\"behind\":3\x7d"]
    ["\x7b\"name\":\"b\",\"ahead\":2,\"behind\":1\x7d"]
    (by decide) (by decide)).1

/-- Claim C9: with no workdir (bare repository) the built git argument
list contains no `--work-tree` flag (as long as the caller did not pass
one); with a workdir present it contains `--work-tree` immediately
followed by that directory. -/
theorem c9_worktree_iff_workdir (flag : Bool) (cd gd : String) (gargs : List GitArg) :
    (∀ wt, List.IsInfix [GitArg.lit "--work-tree", GitArg.path wt]
        (exec_git_args flag cd gd (some wt) gargs))
    ∧ (GitArg.lit "--work-tree" ∉ gargs →
        GitArg.lit "--work-tree" ∉ exec_git_args flag cd gd none gargs) := by
  constructor
  · intro wt
    refine ⟨[GitArg.lit "-C", GitArg.path cd, GitArg.lit "--git-dir", GitArg.path gd,
             GitArg.lit "-c", GitArg.lit (fsm_config_value flag)], gargs, ?_⟩
    simp [exec_git_args]
  · intro hg hmem
    cases flag <;> simp [exec_git_args, fsm_config_value] at hmem <;> exact hg hmem

/-- Witness for C9 at concrete paths and arguments. -/
theorem c9_witness :
    List.IsInfix [GitArg.lit "--work-tree", GitArg.path "/repo"]
        (exec_git_args true "/cwd" "/repo/.git" (some "/repo") [GitArg.lit "status"])
    ∧ GitArg.lit "--work-tree" ∉ exec_git_args true "/cwd" "/repo/.git" none
        [GitArg.lit "status"] :=
  ⟨(c9_worktree_iff_workdir true "/cwd" "/repo/.git" [GitArg.lit "status"]).1 "/repo",
   (c9_worktree_iff_workdir true "/cwd" "/repo/.git" [GitArg.lit "status"]).2 (by decide)⟩

/-- Claim C10: empty segments of the record-separated line 1 are
discarded, so no assembled `BookmarkInfo` ever has an empty name; and
line 1 `feat\x1e\x1emain` yields exactly the bookmarks `feat` and
`main`. -/
theorem c10_no_empty_names :
    (∀ (o : Option String) (e2 : String → Option String)
       (info : JjClosestBookmarksInfo),
       get_closest_jujutsu_bookmarks_info o e2 = some info →
       ∀ b ∈ info.bookmarks, ¬ b.name = "")
    ∧ get_closest_jujutsu_bookmarks_info (some "c") (fun _ => some "feat\x1e\x1emain\n")
        = some ⟨[⟨"feat", 0, 0, false⟩, ⟨"main", 0, 0, false⟩]⟩ := by
  constructor
  · intro o e2 info hres b hb
    cases o with
    | none => cases hres
    | some o1 =>
      by_cases hcid : changeIdClosest o1 = ""
      · have h0 : get_closest_jujutsu_bookmarks_info (some o1) e2 = some ⟨[]⟩ := by
          simp only [get_closest_jujutsu_bookmarks_info]
          rw [if_pos hcid]
        rw [h0] at hres
        injection hres with h
        subst h
        cases hb
      · cases he : e2 (changeIdClosest o1) with
        | none =>
          have h0 : get_closest_jujutsu_bookmarks_info (some o1) e2 = none := by
            simp only [get_closest_jujutsu_bookmarks_info]
            rw [if_neg hcid, he]
          rw [h0] at hres
          cases hres
        | some out =>
          rw [get_closest_run o1 out e2 hcid he] at hres
          injection hres with h
          subst h
          exact assemble_name_ne _ _ b hb
  · decide

/-- Witness for C10: the first bookmark of the example result has a
non-empty name. -/
theorem c10_witness : ¬ (BookmarkInfo.name ⟨"feat", 0, 0, false⟩ = "") :=
  c10_no_empty_names.1 (some "c") (fun _ => some "feat\x1e\x1emain\n")
    ⟨[⟨"feat", 0, 0, false⟩, ⟨"main", 0, 0, false⟩]⟩ (by decide)
    ⟨"feat", 0, 0, false⟩ (by decide)
